import Mathlib

/-!
Shallow embedding of the DOM-diffing renderer (`DOMDiff` in the repository's
main bundle: `createVNode`, `parseHTML`, `sameVNode`, `updateAttributes`,
`patchChildren`, `createElementFromVNode`, `patch`, `diff`).

Modelling conventions:
* A live DOM node is `DNode`: a text node, a comment node (standing for any
  node that is neither text nor element), or an element carrying its tag name
  (stored uppercase, as `tagName` reports it), its attribute list (ordered,
  unique names in a real DOM), its live boolean `checked` property, its live
  string `value` property, whether it is `document.activeElement` (`focused`),
  and its child list.
* The browser's HTML parser is an external collaborator: functions that in the
  source receive an HTML string here receive the list of DOM nodes the browser
  parser produces for it.  `diff` takes `Option (List DNode)` for the previous
  HTML (`none` models a falsy previous-HTML string) and `List DNode` for the
  new HTML.
* DOM mutations are logged in a `Mut` trace; JavaScript exceptions
  (property access or method call on `undefined`, `setAttribute` on a
  non-element, `appendChild` on a text node) are modelled with `Except PErr`.
  `diff`'s try/catch is the final `match` in `Miojo.diff`.  On the catch path
  the source assigns `container.innerHTML = newHTML`; the trace reported for
  that assignment is computed against the container's children at entry (the
  intermediate partially-patched state is not observed by any theorem).
-/

namespace Miojo

/-- Virtual node, as built by `createVNode` / `parseHTML`:
`{type:'text'|'element'|'fragment', value?, tag?, attrs?, children?}`. -/
inductive VNode where
  | text (value : String)
  | element (tag : String) (attrs : List (String × String)) (children : List VNode)
  | fragment (children : List VNode)
deriving Repr

/-- Live DOM node. `dcomment` stands for any node whose `nodeType` is neither
`TEXT_NODE` nor `ELEMENT_NODE`. -/
inductive DNode where
  | dtext (value : String)
  | dcomment (value : String)
  | delem (tag : String) (attrs : List (String × String)) (checked : Bool)
      (val : String) (focused : Bool) (children : List DNode)
deriving Repr

/-- One live DOM mutation performed by the reconciler. -/
inductive Mut where
  | removeAttr (name : String)
  | setAttr (name value : String)
  | setValueProp (value : String)
  | setCheckedProp (b : Bool)
  | setText (value : String)
  | removeChild
  | appendChild
  | replaceChild
deriving Repr, DecidableEq

/-- A JavaScript runtime exception (TypeError / HierarchyRequestError). -/
inductive PErr where
  | typeError
deriving Repr, DecidableEq

/-- `s.toUpperCase()` (character-wise, as for ASCII tag names). -/
def jsToUpper (s : String) : String := ⟨s.data.map Char.toUpper⟩

/-- `s.toLowerCase()` (character-wise, as for ASCII tag names). -/
def jsToLower (s : String) : String := ⟨s.data.map Char.toLower⟩

/-- JS object property read `attrs[k]` (attribute names are unique in a DOM
element and in a JS object literal). -/
def lookupA (a : List (String × String)) (k : String) : Option String :=
  (a.find? (fun p => p.1 == k)).map Prod.snd

/-- `el.setAttribute(k, v)`: overwrite an existing attribute in place,
otherwise append it. -/
def setAttrList (a : List (String × String)) (k v : String) : List (String × String) :=
  if a.any (fun p => p.1 == k) then a.map (fun p => if p.1 == k then (k, v) else p)
  else a ++ [(k, v)]

/-- Attribute names pairwise distinct (true of any real DOM element and of any
JS object literal, hence of every attribute map the source manipulates). -/
def keysNodup : List (String × String) → Bool
  | [] => true
  | (k, _) :: rest => !(rest.any (fun p => p.1 == k)) && keysNodup rest

def childNodesOf : DNode → List DNode
  | .delem _ _ _ _ _ cs => cs
  | _ => []

def isElemNode : DNode → Bool
  | .delem _ _ _ _ _ _ => true
  | _ => false

/-- Nodes with a `nodeType` other than text/element (modelled by `dcomment`). -/
def isOtherNode : DNode → Bool
  | .dcomment _ => true
  | _ => false

def setChildren : DNode → List DNode → DNode
  | .delem t a ck vl f _, cs => .delem t a ck vl f cs
  | e, _ => e

/-- `el.tagName`: `undefined` for non-elements. -/
def tagNameOf : DNode → Option String
  | .delem t _ _ _ _ _ => some t
  | _ => none

/-- `document.activeElement === el`. -/
def focusedOf : DNode → Bool
  | .delem _ _ _ _ f _ => f
  | _ => false

def valueFieldOf : DNode → Option String
  | .delem _ _ _ vl _ _ => some vl
  | _ => none

def checkedFieldOf : DNode → Option Bool
  | .delem _ _ ck _ _ _ => some ck
  | _ => none

def attrsFieldOf : DNode → Option (List (String × String))
  | .delem _ a _ _ _ _ => some a
  | _ => none

/-- `el.textContent = v` (on an element this replaces the children; the empty
string yields no text child). -/
def setTextContent (e : DNode) (v : String) : DNode :=
  match e with
  | .dtext _ => .dtext v
  | .dcomment _ => .dcomment v
  | .delem t a ck vl f _ => .delem t a ck vl f (if v == "" then [] else [.dtext v])

/-- `createVNode(el)` (source): text node to a text vnode; element to an
element vnode with lower-cased tag, copied attributes and recursively
converted children, dropping children that convert to `null`; any other node
to `null`. -/
def createVNode : DNode → Option VNode
  | .dtext v => some (.text v)
  | .dcomment _ => none
  | .delem t a _ _ _ cs => some (.element (jsToLower t) a (go cs))
where
  /-- The child-collection loop of `createVNode`: convert each child, keep the
  non-`null` results. -/
  go : List DNode → List VNode
  | [] => []
  | c :: rest =>
    match createVNode c with
    | some v => v :: go rest
    | none => go rest

/-- `parseHTML(html)` (source): parse into the template's child node list
(here received directly from the abstract browser parser), convert each child
with `createVNode` keeping non-`null` results, and return the single result or
a fragment vnode. -/
def parseHTML (ns : List DNode) : VNode :=
  match createVNode.go ns with
  | [v] => v
  | cs => .fragment cs

def vtype : VNode → String
  | .text _ => "text"
  | .element _ _ _ => "element"
  | .fragment _ => "fragment"

/-- `a.tag`: `undefined` on text and fragment vnodes. -/
def tagOf : VNode → Option String
  | .element t _ _ => some t
  | _ => none

/-- `a.attrs?.key`. -/
def keyOf : VNode → Option String
  | .element _ a _ => lookupA a "key"
  | _ => none

/-- JS truthiness of `a.attrs?.key`: `undefined` and the empty string are
falsy, every other string is truthy. -/
def truthyS : Option String → Bool
  | none => false
  | some s => !(s == "")

def isTextV : VNode → Bool
  | .text _ => true
  | _ => false

def isElemV : VNode → Bool
  | .element _ _ _ => true
  | _ => false

def isFragV : VNode → Bool
  | .fragment _ => true
  | _ => false

/-- `sameVNode(a, b)` (source): false if either is `null`; false on differing
`type`; text vnodes always match; elements must share `tag`; then if either
side's `key` attribute is truthy the keys must be strictly equal. -/
def sameVNode : Option VNode → Option VNode → Bool
  | none, _ => false
  | _, none => false
  | some a, some b =>
    if vtype a != vtype b then false
    else if vtype a == "text" then true
    else if tagOf a != tagOf b then false
    else
      let aKey := keyOf a
      let bKey := keyOf b
      if truthyS aKey || truthyS bKey then aKey == bKey else true

/-- The attribute loop of `createElementFromVNode`: `checked` is applied to
the live boolean property, everything else via `setAttribute`. -/
def applyAttrs : List (String × String) → List (String × String) → Bool →
    List (String × String) × Bool
  | acc, [], ck => (acc, ck)
  | acc, (k, v) :: rest, ck =>
    if k == "checked" then applyAttrs acc rest (v == "true" || v == "checked")
    else applyAttrs (setAttrList acc k v) rest ck

/-- `createElementFromVNode(vnode)` (source).  A fragment becomes a
`DocumentFragment`; inserting a `DocumentFragment` splices its children, so
the model returns the list of nodes an insertion of the result produces. -/
def createElementFromVNode : VNode → List DNode
  | .text v => [.dtext v]
  | .fragment cs => goL cs
  | .element t a cs =>
    match applyAttrs [] a false with
    | (attrs, ck) => [.delem (jsToUpper t) attrs ck "" false (goL cs)]
where
  /-- Child loop: `appendChild` of each converted child (appending a
  `DocumentFragment` splices it). -/
  goL : List VNode → List DNode
  | [] => []
  | c :: rest => createElementFromVNode c ++ goL rest

/-- `el.removeAttribute(k)`: a TypeError when `el` is `undefined` or has no
such method (text/comment nodes). -/
def removeAttributeOp : Option DNode → String → Except PErr DNode
  | none, _ => .error .typeError
  | some (.delem t a ck vl f cs), k =>
    .ok (.delem t (a.filter (fun p => !(p.1 == k))) ck vl f cs)
  | some _, _ => .error .typeError

/-- `el.setAttribute(k, v)`: a TypeError when `el` is `undefined` or has no
such method (text/comment nodes). -/
def setAttributeOp : Option DNode → String → String → Except PErr DNode
  | none, _, _ => .error .typeError
  | some (.delem t a ck vl f cs), k, v => .ok (.delem t (setAttrList a k v) ck vl f cs)
  | some _, _, _ => .error .typeError

/-- `el.checked = b`: a property assignment; on a non-element node this sets
an expando property with no DOM effect (still recorded in the trace). -/
def setCheckedAssign (e : DNode) (b : Bool) : DNode :=
  match e with
  | .delem t a _ vl f cs => .delem t a b vl f cs
  | e => e

/-- `el.value = v` (only reached on an `INPUT` element in the source). -/
def setValueAssign (e : DNode) (v : String) : DNode :=
  match e with
  | .delem t a ck _ f cs => .delem t a ck v f cs
  | e => e

/-- First loop of `updateAttributes` (source): remove every old attribute
whose name is not `in` the new attribute object. -/
def removeAttrsPhase (el : Option DNode) (oldIter newA : List (String × String)) :
    Except PErr (Option DNode × List Mut) :=
  match oldIter with
  | [] => .ok (el, [])
  | (k, _) :: rest =>
    if lookupA newA k = none then
      match removeAttributeOp el k with
      | .error e => .error e
      | .ok e' =>
        match removeAttrsPhase (some e') rest newA with
        | .error e => .error e
        | .ok (el2, m) => .ok (el2, .removeAttr k :: m)
    else removeAttrsPhase el rest newA

/-- Second loop of `updateAttributes` (source): for each new attribute whose
value differs from the old one (`undefined` when absent), either skip a
focused input's `value`, assign the boolean `checked` property, or
`setAttribute`. -/
def setAttrsPhase (el : Option DNode) (oldA : List (String × String))
    (newIter : List (String × String)) : Except PErr (Option DNode × List Mut) :=
  match newIter with
  | [] => .ok (el, [])
  | (k, v) :: rest =>
    if some v ≠ lookupA oldA k then
      if k == "value" then
        match el with
        | none => .error .typeError
        | some e =>
          if tagNameOf e == some "INPUT" then
            if focusedOf e then setAttrsPhase (some e) oldA rest
            else
              match setAttrsPhase (some (setValueAssign e v)) oldA rest with
              | .error err => .error err
              | .ok (el2, m) => .ok (el2, .setValueProp v :: m)
          else
            match setAttributeOp (some e) k v with
            | .error err => .error err
            | .ok e' =>
              match setAttrsPhase (some e') oldA rest with
              | .error err => .error err
              | .ok (el2, m) => .ok (el2, .setAttr k v :: m)
      else if k == "checked" then
        match el with
        | none => .error .typeError
        | some e =>
          match setAttrsPhase (some (setCheckedAssign e (v == "true" || v == "checked"))) oldA rest with
          | .error err => .error err
          | .ok (el2, m) => .ok (el2, .setCheckedProp (v == "true" || v == "checked") :: m)
      else
        match setAttributeOp el k v with
        | .error err => .error err
        | .ok e' =>
          match setAttrsPhase (some e') oldA rest with
          | .error err => .error err
          | .ok (el2, m) => .ok (el2, .setAttr k v :: m)
    else setAttrsPhase el oldA rest

/-- `updateAttributes(el, oldAttrs, newAttrs)` (source): removal loop then
add/update loop. -/
def updateAttributes (el : Option DNode) (oldA newA : List (String × String)) :
    Except PErr (Option DNode × List Mut) :=
  match removeAttrsPhase el oldA newA with
  | .error e => .error e
  | .ok (el1, m1) =>
    match setAttrsPhase el1 oldA newA with
    | .error e => .error e
    | .ok (el2, m2) => .ok (el2, m1 ++ m2)

/-- Replace the slot at index `i` by the nodes `repl` (what an in-place patch
or a `replaceChild` of `childNodes[i]` leaves there). -/
def splice (cs : List DNode) (i : Nat) (repl : List DNode) : List DNode :=
  cs.take i ++ repl ++ cs.drop (i + 1)

/-- Tail of the `patchChildren` loop once the new list is exhausted:
`parent.removeChild(parent.childNodes[i])` whenever that child exists.
Removing at the live index while the list shrinks is the source's behaviour. -/
def removeRest (oldIter : List VNode) (i : Nat) (cs : List DNode) :
    List DNode × List Mut :=
  match oldIter with
  | [] => (cs, [])
  | _ :: rest =>
    if i < cs.length then
      match removeRest rest (i + 1) (cs.eraseIdx i) with
      | (cs2, m) => (cs2, .removeChild :: m)
    else removeRest rest (i + 1) cs

/-- Tail of the `patchChildren` loop once the old list is exhausted:
`parent.appendChild(createElementFromVNode(newVNode))`; appending to a
non-element parent raises. -/
def appendRest (newIter : List VNode) (cs : List DNode) (isElem : Bool) :
    Except PErr (List DNode × List Mut) :=
  match newIter with
  | [] => .ok (cs, [])
  | nv :: rest =>
    if isElem then
      match appendRest rest (cs ++ createElementFromVNode nv) isElem with
      | .error e => .error e
      | .ok (cs2, m) => .ok (cs2, .appendChild :: m)
    else .error .typeError

mutual

/-- `patch(el, oldVNode, newVNode)` (source).  Returns the nodes occupying
`el`'s slot afterwards and the mutation trace; accessing a property of an
`undefined` `el` raises.  The call `patchChildren(el, oldVNode.children,
newVNode.children)` is inlined here (see `patchChildren` below for the
stand-alone function); the behaviour is identical. -/
def patch (el : Option DNode) (o : Option VNode) (n : VNode) :
    Except PErr (List DNode × List Mut) :=
  if !sameVNode o (some n) then
    match el with
    | none => .error .typeError
    | some _ => .ok (createElementFromVNode n, [.replaceChild])
  else
    match n with
    | .text v =>
      match o with
      | some (.text ov) =>
        if !(ov == v) then
          match el with
          | none => .error .typeError
          | some e => .ok ([setTextContent e v], [.setText v])
        else .ok (el.toList, [])
      | _ => .ok (el.toList, [])
    | .element _ na nc =>
      match o with
      | some (.element _ oa oc) =>
        match updateAttributes el oa na with
        | .error e => .error e
        | .ok (el1, m1) =>
          if oc.isEmpty && nc.isEmpty then .ok (el1.toList, m1)
          else
            match el1 with
            | none => .error .typeError
            | some p =>
              match pcLoop oc nc 0 (childNodesOf p) (isElemNode p) with
              | .error e => .error e
              | .ok (cs2, m2) => .ok ([setChildren p cs2], m1 ++ m2)
      | _ => .ok (el.toList, [])
    | .fragment _ => .ok (el.toList, [])

/-- The index loop of `patchChildren` (source): while both vnode lists have an
entry, `patch(parent.childNodes[i], oldVNode, newVNode)` and splice the result
into the live list; once the new list is exhausted remove extras at the live
index; once the old list is exhausted append fresh nodes. -/
def pcLoop (oldCs newCs : List VNode) (i : Nat) (cs : List DNode)
    (isElem : Bool) : Except PErr (List DNode × List Mut) :=
  match oldCs, newCs with
  | [], rest => appendRest rest cs isElem
  | rest, [] => .ok (removeRest rest i cs)
  | ov :: orest, nv :: nrest =>
    match patch cs[i]? (some ov) nv with
    | .error e => .error e
    | .ok (repl, m) =>
      match pcLoop orest nrest (i + 1) (splice cs i repl) isElem with
      | .error e => .error e
      | .ok (cs2, m2) => .ok (cs2, m ++ m2)

end

/-- `patchChildren(parent, oldChildren, newChildren)` (source): walk old and
new child vnode lists by parallel index over the live `parent.childNodes`
(which the loop itself mutates).  If the loop body runs at all with an
`undefined` parent, reading `parent.childNodes` raises.  This is the function
`patch` inlines. -/
def patchChildren (parent : Option DNode) (oldCs newCs : List VNode) :
    Except PErr (Option DNode × List Mut) :=
  if oldCs.isEmpty && newCs.isEmpty then .ok (parent, [])
  else
    match parent with
    | none => .error .typeError
    | some p =>
      match pcLoop oldCs newCs 0 (childNodesOf p) (isElemNode p) with
      | .error e => .error e
      | .ok (cs2, m) => .ok (some (setChildren p cs2), m)

/-- Mutation trace of `container.innerHTML = newHTML`: every current child is
removed, every node of the parse of `newHTML` is inserted. -/
def innerHTMLMuts (cur next : List DNode) : List Mut :=
  cur.map (fun _ => Mut.removeChild) ++ next.map (fun _ => Mut.appendChild)

/-- Body of `diff(container, oldHTML, newHTML)` (source) up to its try/catch:
the container is represented by its child list, the two HTML strings by their
browser parses (`none` for a falsy `oldHTML`). -/
def diffBody (container : List DNode) (oldParsed : Option (List DNode))
    (newParsed : List DNode) : Except PErr (List DNode × List Mut) :=
  let oldVNode : Option VNode := oldParsed.map parseHTML
  let newVNode : VNode := parseHTML newParsed
  if oldVNode.isNone || container.isEmpty then
    .ok (newParsed, innerHTMLMuts container newParsed)
  else
    match container with
    | [] => .ok (createElementFromVNode newVNode, [.appendChild])
    | first :: rest =>
      match patch (some first) (createVNode first) newVNode with
      | .error e => .error e
      | .ok (repl, m) => .ok (repl ++ rest, m)

/-- `diff(container, oldHTML, newHTML)` (source): run the body, and on any
exception fall back to `container.innerHTML = newHTML`. -/
def diff (container : List DNode) (oldParsed : Option (List DNode))
    (newParsed : List DNode) : List DNode × List Mut :=
  match diffBody container oldParsed newParsed with
  | .ok r => r
  | .error _ => (newParsed, innerHTMLMuts container newParsed)

/-- Well-formedness of a live tree for the idempotence theorem: no comment (or
other non-text, non-element) nodes, and attribute names unique at every
element (as in any real DOM tree). -/
def clean : DNode → Bool
  | .dtext _ => true
  | .dcomment _ => false
  | .delem _ a _ _ _ cs => keysNodup a && go cs
where
  go : List DNode → Bool
  | [] => true
  | c :: rest => clean c && go rest

/-- The attribute key a mutation touches, if any. -/
def mutAttrKey : Mut → Option String
  | .removeAttr k => some k
  | .setAttr k _ => some k
  | .setValueProp _ => some "value"
  | .setCheckedProp _ => some "checked"
  | _ => none

/-- Concrete `<li>x</li>` live node, as the browser parser produces it. -/
def liNode (s : String) : DNode := .delem "LI" [] false "" false [.dtext s]

/-- Concrete `<ul>...</ul>` live node. -/
def ulNode (cs : List DNode) : DNode := .delem "UL" [] false "" false cs

/-- Concrete `<li>x</li>` vnode. -/
def liV (s : String) : VNode := .element "li" [] [.text s]

/-- Concrete `<p>s</p>` live node. -/
def pNode (s : String) : DNode := .delem "P" [] false "" false [.dtext s]

/-- Concrete `<div><!--c--><p><b>x</b></p></div>` live node: a comment child
displacing an element with grandchildren. -/
def commentedDiv : DNode :=
  .delem "DIV" [] false "" false
    [.dcomment "c", .delem "P" [] false "" false
      [.delem "B" [] false "" false [.dtext "x"]]]

section Lemmas

lemma lookupA_cons (k0 v0 k : String) (rest : List (String × String)) :
    lookupA ((k0, v0) :: rest) k = if k0 == k then some v0 else lookupA rest k := by
  by_cases h : k0 == k <;> simp [lookupA, List.find?, h]

lemma lookupA_isSome_iff (a : List (String × String)) (k : String) :
    (lookupA a k).isSome = true ↔ ∃ v, (k, v) ∈ a := by
  induction a with
  | nil => simp [lookupA]
  | cons p rest ih =>
    obtain ⟨k0, v0⟩ := p
    rw [lookupA_cons]
    by_cases h : k0 = k
    · subst h
      simp
    · rw [if_neg (by simpa using h), ih]
      constructor
      · rintro ⟨v, hv⟩
        exact ⟨v, List.mem_cons_of_mem _ hv⟩
      · rintro ⟨v, hv⟩
        rcases List.mem_cons.mp hv with he | hm
        · cases he
          exact absurd rfl h
        · exact ⟨v, hm⟩

lemma lookupA_nodup_mem {a : List (String × String)} (hnd : keysNodup a = true)
    {k v : String} (hm : (k, v) ∈ a) : lookupA a k = some v := by
  induction a with
  | nil => simp at hm
  | cons p rest ih =>
    obtain ⟨k0, v0⟩ := p
    simp only [keysNodup, Bool.and_eq_true, Bool.not_eq_true'] at hnd
    rw [lookupA_cons]
    rcases List.mem_cons.mp hm with h | h
    · obtain ⟨hk, hv⟩ := Prod.mk.injEq .. ▸ h
      simp_all
    · have hk0 : ¬ k0 = k := by
        intro he
        subst he
        have : rest.any (fun p => p.1 == k0) = true :=
          List.any_eq_true.mpr ⟨(k0, v), h, by simp⟩
        simp [this] at hnd
      simp only [beq_iff_eq, hk0, if_neg, Bool.false_eq_true]
      exact ih hnd.2 h

lemma lookupA_mem_isSome {a : List (String × String)} {k v : String}
    (hm : (k, v) ∈ a) : (lookupA a k).isSome = true :=
  (lookupA_isSome_iff a k).mpr ⟨v, hm⟩

lemma sameVNode_refl (v : VNode) : sameVNode (some v) (some v) = true := by
  cases v <;> simp [sameVNode, vtype, tagOf, keyOf]

lemma removeAttrsPhase_delem (olds : List (String × String))
    (newA : List (String × String)) (t : String) (ck : Bool) (vl : String)
    (fc : Bool) (cs : List DNode) :
    ∀ a : List (String × String),
    ∃ a2 m,
      removeAttrsPhase (some (.delem t a ck vl fc cs)) olds newA
        = .ok (some (.delem t a2 ck vl fc cs), m) ∧
      (∀ x ∈ m, ∃ k, x = Mut.removeAttr k) ∧
      (∀ k, Mut.removeAttr k ∈ m ↔
        ((lookupA olds k).isSome = true ∧ lookupA newA k = none)) := by
  induction olds with
  | nil =>
    intro a
    exact ⟨a, [], rfl, by simp, by simp [lookupA]⟩
  | cons p rest ih =>
    obtain ⟨k0, v0⟩ := p
    intro a
    by_cases h : lookupA newA k0 = none
    · obtain ⟨a2, m, heq, hall, hiff⟩ := ih (a.filter (fun q => !(q.1 == k0)))
      refine ⟨a2, .removeAttr k0 :: m, ?_, ?_, ?_⟩
      · simp only [removeAttrsPhase]
        rw [if_pos h]
        simp only [removeAttributeOp]
        rw [heq]
      · intro x hx
        rcases List.mem_cons.mp hx with he | hm
        · exact ⟨k0, he⟩
        · exact hall x hm
      · intro k
        rw [lookupA_cons]
        by_cases hk : k0 = k
        · subst hk
          simp [h]
        · rw [if_neg (by simpa using hk)]
          have hne : ¬ (k = k0) := fun he => hk he.symm
          simp [List.mem_cons, hne, hiff k]
    · obtain ⟨a2, m, heq, hall, hiff⟩ := ih a
      refine ⟨a2, m, ?_, hall, ?_⟩
      · simp only [removeAttrsPhase]
        rw [if_neg h]
        exact heq
      · intro k
        rw [lookupA_cons]
        by_cases hk : k0 = k
        · subst hk
          rw [if_pos (by simp)]
          simp [hiff k0, h]
        · rw [if_neg (by simpa using hk)]
          exact hiff k

lemma setAttrsPhase_delem (news : List (String × String))
    (oldA : List (String × String)) (t : String) (fc : Bool) (cs : List DNode) :
    ∀ (a : List (String × String)) (ck : Bool) (vl : String),
    ∃ a2 ck2 vl2 m,
      setAttrsPhase (some (.delem t a ck vl fc cs)) oldA news
        = .ok (some (.delem t a2 ck2 vl2 fc cs), m) ∧
      (∀ x ∈ m, ∃ k v, (k, v) ∈ news ∧ some v ≠ lookupA oldA k ∧
        ((x = Mut.setAttr k v ∧ ¬ k = "checked") ∨
         (k = "value" ∧ t = "INPUT" ∧ fc = false ∧ x = Mut.setValueProp v) ∨
         (k = "checked" ∧ x = Mut.setCheckedProp (v == "true" || v == "checked")))) ∧
      (fc = true → vl2 = vl) ∧
      (∀ v, lookupA news "checked" = some v → some v ≠ lookupA oldA "checked" →
        Mut.setCheckedProp (v == "true" || v == "checked") ∈ m) := by
  induction news with
  | nil =>
    intro a ck vl
    exact ⟨a, ck, vl, [], rfl, by simp, fun _ => rfl, by simp [lookupA]⟩
  | cons p rest ih =>
    obtain ⟨k0, v0⟩ := p
    intro a ck vl
    by_cases hch : some v0 ≠ lookupA oldA k0
    · by_cases hkv : k0 = "value"
      · subst hkv
        by_cases ht : t = "INPUT"
        · subst ht
          rcases Bool.eq_false_or_eq_true fc with hfc | hfc
          · subst hfc
            obtain ⟨a2, ck2, vl2, m, heq, hchar, hvl, hck⟩ := ih a ck vl
            refine ⟨a2, ck2, vl2, m, ?_, ?_, hvl, ?_⟩
            · simp only [setAttrsPhase]
              rw [if_pos hch]
              simp only [tagNameOf, focusedOf]
              rw [if_pos (by decide : (("value" : String) == "value") = true)]
              rw [if_pos (by decide : ((some "INPUT" : Option String) == some "INPUT") = true)]
              simp [heq]
            · intro x hx
              obtain ⟨k, v, hmem, hne, hd⟩ := hchar x hx
              exact ⟨k, v, List.mem_cons_of_mem _ hmem, hne, hd⟩
            · intro v hv hne
              rw [lookupA_cons, if_neg (by decide)] at hv
              exact hck v hv hne
          · subst hfc
            obtain ⟨a2, ck2, vl2, m, heq, hchar, hvl, hck⟩ := ih a ck v0
            refine ⟨a2, ck2, vl2, .setValueProp v0 :: m, ?_, ?_, ?_, ?_⟩
            · simp only [setAttrsPhase]
              rw [if_pos hch]
              simp only [tagNameOf, focusedOf]
              rw [if_pos (by decide : (("value" : String) == "value") = true)]
              rw [if_pos (by decide : ((some "INPUT" : Option String) == some "INPUT") = true)]
              simp only [setValueAssign]
              simp [heq]
            · intro x hx
              rcases List.mem_cons.mp hx with he | hm
              · exact ⟨"value", v0, List.mem_cons_self .., hch,
                  Or.inr (Or.inl ⟨rfl, rfl, rfl, he⟩)⟩
              · obtain ⟨k, v, hmem, hne, hd⟩ := hchar x hm
                exact ⟨k, v, List.mem_cons_of_mem _ hmem, hne, hd⟩
            · intro hcontra
              exact nomatch hcontra
            · intro v hv hne
              rw [lookupA_cons, if_neg (by decide)] at hv
              exact List.mem_cons_of_mem _ (hck v hv hne)
        · obtain ⟨a2, ck2, vl2, m, heq, hchar, hvl, hck⟩ :=
            ih (setAttrList a "value" v0) ck vl
          refine ⟨a2, ck2, vl2, .setAttr "value" v0 :: m, ?_, ?_, hvl, ?_⟩
          · simp only [setAttrsPhase]
            rw [if_pos hch]
            simp only [tagNameOf]
            rw [if_pos (by decide : (("value" : String) == "value") = true)]
            rw [if_neg (by simpa using ht)]
            simp only [setAttributeOp]
            rw [heq]
          · intro x hx
            rcases List.mem_cons.mp hx with he | hm
            · exact ⟨"value", v0, List.mem_cons_self .., hch,
                Or.inl ⟨he, by decide⟩⟩
            · obtain ⟨k, v, hmem, hne, hd⟩ := hchar x hm
              exact ⟨k, v, List.mem_cons_of_mem _ hmem, hne, hd⟩
          · intro v hv hne
            rw [lookupA_cons, if_neg (by decide)] at hv
            exact List.mem_cons_of_mem _ (hck v hv hne)
      · by_cases hkc : k0 = "checked"
        · subst hkc
          obtain ⟨a2, ck2, vl2, m, heq, hchar, hvl, hck⟩ :=
            ih a (v0 == "true" || v0 == "checked") vl
          refine ⟨a2, ck2, vl2,
            .setCheckedProp (v0 == "true" || v0 == "checked") :: m, ?_, ?_, hvl, ?_⟩
          · simp only [setAttrsPhase]
            rw [if_pos hch]
            rw [if_neg (by decide : ¬ ((("checked" : String) == "value") = true))]
            rw [if_pos (by decide : (("checked" : String) == "checked") = true)]
            simp only [setCheckedAssign]
            rw [heq]
          · intro x hx
            rcases List.mem_cons.mp hx with he | hm
            · exact ⟨"checked", v0, List.mem_cons_self .., hch,
                Or.inr (Or.inr ⟨rfl, he⟩)⟩
            · obtain ⟨k, v, hmem, hne, hd⟩ := hchar x hm
              exact ⟨k, v, List.mem_cons_of_mem _ hmem, hne, hd⟩
          · intro v hv hne
            rw [lookupA_cons, if_pos (by decide)] at hv
            injection hv with hv2
            subst hv2
            exact List.mem_cons_self ..
        · obtain ⟨a2, ck2, vl2, m, heq, hchar, hvl, hck⟩ :=
            ih (setAttrList a k0 v0) ck vl
          refine ⟨a2, ck2, vl2, .setAttr k0 v0 :: m, ?_, ?_, hvl, ?_⟩
          · simp only [setAttrsPhase]
            rw [if_pos hch]
            rw [if_neg (by simpa using hkv)]
            rw [if_neg (by simpa using hkc)]
            simp only [setAttributeOp]
            rw [heq]
          · intro x hx
            rcases List.mem_cons.mp hx with he | hm
            · exact ⟨k0, v0, List.mem_cons_self .., hch, Or.inl ⟨he, hkc⟩⟩
            · obtain ⟨k, v, hmem, hne, hd⟩ := hchar x hm
              exact ⟨k, v, List.mem_cons_of_mem _ hmem, hne, hd⟩
          · intro v hv hne
            rw [lookupA_cons, if_neg (by simpa using hkc)] at hv
            exact List.mem_cons_of_mem _ (hck v hv hne)
    · obtain ⟨a2, ck2, vl2, m, heq, hchar, hvl, hck⟩ := ih a ck vl
      have hev : some v0 = lookupA oldA k0 := not_not.mp hch
      refine ⟨a2, ck2, vl2, m, ?_, ?_, hvl, ?_⟩
      · simp only [setAttrsPhase]
        rw [if_neg hch]
        exact heq
      · intro x hx
        obtain ⟨k, v, hmem, hne, hd⟩ := hchar x hx
        exact ⟨k, v, List.mem_cons_of_mem _ hmem, hne, hd⟩
      · intro v hv hne
        rw [lookupA_cons] at hv
        by_cases hk0 : k0 = "checked"
        · subst hk0
          rw [if_pos (by decide)] at hv
          injection hv with hv2
          subst hv2
          exact absurd hev hne
        · rw [if_neg (by simpa using hk0)] at hv
          exact hck v hv hne

end Lemmas

/-- C5 (amended): the same-node test succeeds only when both vnodes are text
nodes, both are fragments, or both are elements with the same tag.  (The
original claim omitted the fragment case; see the counterexample.) -/
theorem c5_sameVNode_kinds (a b : VNode) (h : sameVNode (some a) (some b) = true) :
    (isTextV a = true ∧ isTextV b = true) ∨
    (isFragV a = true ∧ isFragV b = true) ∨
    (isElemV a = true ∧ isElemV b = true ∧ tagOf a = tagOf b) := by
  cases a <;> cases b <;>
    simp_all [sameVNode, vtype, tagOf, keyOf, isTextV, isFragV, isElemV]

/-- C5 witness: the theorem applied to two concrete text vnodes. -/
theorem c5_sameVNode_kinds_witness :
    (isTextV (.text "x") = true ∧ isTextV (.text "y") = true) ∨
    (isFragV (.text "x") = true ∧ isFragV (.text "y") = true) ∨
    (isElemV (.text "x") = true ∧ isElemV (.text "y") = true ∧
      tagOf (.text "x") = tagOf (.text "y")) :=
  c5_sameVNode_kinds (.text "x") (.text "y") (by decide)

/-- C5 counterexample: two fragment vnodes pass the same-node test although
neither is a text node and neither is an element. -/
theorem c5_fragment_counterexample :
    sameVNode (some (.fragment [])) (some (.fragment [])) = true ∧
    isTextV (.fragment []) = false ∧ isElemV (.fragment []) = false := by
  decide

/-- C6 (amended): for two element vnodes with the same tag, the same-node test
succeeds exactly when: if either side's `key` attribute is present with a
non-empty value, the two `key` lookups are equal (an absent key differing from
any present one); a `key` whose value is the empty string is falsy in JS and
does not trigger the comparison. -/
theorem c6_key_semantics (t : String) (aa ba : List (String × String))
    (ca cb : List VNode) :
    sameVNode (some (.element t aa ca)) (some (.element t ba cb)) = true ↔
      ((truthyS (lookupA aa "key") = true ∨ truthyS (lookupA ba "key") = true) →
        lookupA aa "key" = lookupA ba "key") := by
  simp only [sameVNode, vtype, tagOf, keyOf]
  by_cases h1 : truthyS (lookupA aa "key") = true <;>
    by_cases h2 : truthyS (lookupA ba "key") = true <;>
      simp [h1, h2]

/-- C6 counterexample: the left element carries the identity attribute
(`key=""`) and the right one does not, yet the same-node test succeeds,
because the empty string is falsy in JS. -/
theorem c6_empty_key_counterexample :
    sameVNode (some (.element "div" [("key", "")] []))
        (some (.element "div" [] [])) = true ∧
    (lookupA [("key", "")] "key").isSome = true ∧
    lookupA ([] : List (String × String)) "key" = none := by
  decide

/-- C1 (failing input): container rendered from
`<ul><li>a</li><li>b</li><li>c</li></ul>`, new HTML `<ul><li>a</li></ul>`.
Removing extra children at a live index that earlier removals already shifted
skips every other child, so the patched `<ul>` keeps two `<li>` children while
parsing the new HTML directly yields one — the container is not structurally
equivalent to the new HTML. -/
theorem c1_convergence_failure :
    diff [ulNode [liNode "a", liNode "b", liNode "c"]]
        (some [ulNode [liNode "a", liNode "b", liNode "c"]])
        [ulNode [liNode "a"]]
      = ([ulNode [liNode "a", liNode "c"]], [Mut.removeChild]) ∧
    (childNodesOf (ulNode [liNode "a", liNode "c"])).length = 2 ∧
    (childNodesOf (ulNode [liNode "a"])).length = 1 :=
  ⟨rfl, rfl, rfl⟩

/-- C4 (failing input): shrinking three old children to one new child removes
only `childNodes[1]`; by the time index 2 is processed the live list has
shifted, `childNodes[2]` is `undefined`, and the removal is skipped, so the
parent ends with two children instead of one. -/
theorem c4_child_count_failure :
    patchChildren (some (ulNode [liNode "a", liNode "b", liNode "c"]))
        [liV "a", liV "b", liV "c"] [liV "a"]
      = .ok (some (ulNode [liNode "a", liNode "c"]), [Mut.removeChild]) ∧
    (childNodesOf (ulNode [liNode "a", liNode "c"])).length = 2 ∧
    [liV "a"].length = 1 :=
  ⟨rfl, rfl, rfl⟩

/-- C3 counterexample: prior HTML `<p>a</p><p>b</p>` (two top-level roots)
rendered into the container, then `diff` with the identical HTML on both
sides. `parseHTML` wraps the new parse in a fragment, the same-node test
against the first child (an element) fails, and `replaceChild` splices the
whole fragment over the first child only — a live mutation (which moreover
duplicates content). -/
theorem c3_idempotence_counterexample :
    diff [pNode "a", pNode "b"] (some [pNode "a", pNode "b"]) [pNode "a", pNode "b"]
      = ([pNode "a", pNode "b", pNode "b"], [Mut.replaceChild]) ∧
    [Mut.replaceChild] ≠ ([] : List Mut) :=
  ⟨rfl, by decide⟩

/-- C2: `diff` is the try/catch wrapper around `diffBody`: whatever the body
does, the caller sees a normal return — on success its result, and on any
exception the fallback that sets the container's content directly from the
parse of the new HTML string. -/
theorem c2_diff_never_raises (c : List DNode) (op : Option (List DNode))
    (np : List DNode) :
    (∀ r, diffBody c op np = .ok r → diff c op np = r) ∧
    (∀ e, diffBody c op np = .error e → diff c op np = (np, innerHTMLMuts c np)) := by
  constructor <;> intro x h <;> simp [diff, h]

/-- C2 witness: a concrete input (comment-displaced grandchildren) on which
the patch path really raises, applied to the theorem: the caller still gets
the fallback result, whose content is the parse of the new HTML. -/
theorem c2_diff_never_raises_witness :
    diff [commentedDiv] (some [commentedDiv]) [commentedDiv]
      = ([commentedDiv], innerHTMLMuts [commentedDiv] [commentedDiv]) :=
  (c2_diff_never_raises [commentedDiv] (some [commentedDiv]) [commentedDiv]).2
    PErr.typeError rfl

/-- C7: attribute reconciliation on a live element whose attributes are the
old map (as in the diff flow, where the old vnode is built from the live
element): the trace removes exactly the attribute names absent from the new
map, every touched attribute key has differing old/new lookups (so an
unchanged attribute is never touched — no redundant writes), and every
attribute write writes the new map's value and only when it differs. -/
theorem c7_attribute_reconciliation (t : String) (ck : Bool) (vl : String)
    (fc : Bool) (cs : List DNode) (oldA newA : List (String × String))
    (hnd : keysNodup newA = true) :
    ∃ e2 muts,
      updateAttributes (some (.delem t oldA ck vl fc cs)) oldA newA = .ok (e2, muts) ∧
      (∀ k, Mut.removeAttr k ∈ muts ↔
        ((lookupA oldA k).isSome = true ∧ lookupA newA k = none)) ∧
      (∀ x ∈ muts, ∀ k, mutAttrKey x = some k → lookupA newA k ≠ lookupA oldA k) ∧
      (∀ k v, Mut.setAttr k v ∈ muts →
        lookupA newA k = some v ∧ some v ≠ lookupA oldA k) := by
  obtain ⟨a1, m1, heq1, hall1, hiff1⟩ :=
    removeAttrsPhase_delem oldA newA t ck vl fc cs oldA
  obtain ⟨a2, ck2, vl2, m2, heq2, hchar2, hvl2, hck2⟩ :=
    setAttrsPhase_delem newA oldA t fc cs a1 ck vl
  refine ⟨some (.delem t a2 ck2 vl2 fc cs), m1 ++ m2, ?_, ?_, ?_, ?_⟩
  · simp [updateAttributes, heq1, heq2]
  · intro k
    constructor
    · intro hk
      rcases List.mem_append.mp hk with h1 | h2
      · exact (hiff1 k).mp h1
      · obtain ⟨k', v, _, _, hd⟩ := hchar2 _ h2
        rcases hd with ⟨he, _⟩ | ⟨_, _, _, he⟩ | ⟨_, he⟩ <;> exact absurd he (by simp)
    · intro hk
      exact List.mem_append.mpr (Or.inl ((hiff1 k).mpr hk))
  · intro x hx k hkey
    rcases List.mem_append.mp hx with h1 | h2
    · obtain ⟨k', he⟩ := hall1 x h1
      subst he
      simp only [mutAttrKey] at hkey
      injection hkey with hk2
      subst hk2
      obtain ⟨hs, hn⟩ := (hiff1 k').mp h1
      rw [hn]
      intro hc
      rw [← hc] at hs
      simp at hs
    · obtain ⟨k', v, hmem, hne, hd⟩ := hchar2 x h2
      have hlook : lookupA newA k' = some v := lookupA_nodup_mem hnd hmem
      rcases hd with ⟨he, _⟩ | ⟨hkv, _, _, he⟩ | ⟨hkc, he⟩
      · subst he
        simp only [mutAttrKey] at hkey
        injection hkey with hk2
        subst hk2
        rw [hlook]
        exact hne
      · subst hkv
        subst he
        simp only [mutAttrKey] at hkey
        injection hkey with hk2
        subst hk2
        rw [hlook]
        exact hne
      · subst hkc
        subst he
        simp only [mutAttrKey] at hkey
        injection hkey with hk2
        subst hk2
        rw [hlook]
        exact hne
  · intro k v hk
    rcases List.mem_append.mp hk with h1 | h2
    · obtain ⟨k', he⟩ := hall1 _ h1
      exact absurd he (by simp)
    · obtain ⟨k', v', hmem, hne, hd⟩ := hchar2 _ h2
      rcases hd with ⟨he, _⟩ | ⟨_, _, _, he⟩ | ⟨_, he⟩
      · injection he with hk2 hv2
        subst hk2
        subst hv2
        exact ⟨lookupA_nodup_mem hnd hmem, hne⟩
      · exact absurd he (by simp)
      · exact absurd he (by simp)

/-- C7 witness: the spec's own example, old `class="a" id="x"` against new
`id="x"`: exactly `class` is removed, and no key with an unchanged value is
touched. -/
theorem c7_attribute_reconciliation_witness :
    keysNodup [("id", "x")] = true ∧
    ∃ e2 muts,
      updateAttributes
          (some (.delem "DIV" [("class", "a"), ("id", "x")] false "" false []))
          [("class", "a"), ("id", "x")] [("id", "x")] = .ok (e2, muts) ∧
      (∀ k, Mut.removeAttr k ∈ muts ↔
        ((lookupA [("class", "a"), ("id", "x")] k).isSome = true ∧
          lookupA [("id", "x")] k = none)) ∧
      (∀ x ∈ muts, ∀ k, mutAttrKey x = some k →
        lookupA [("id", "x")] k ≠ lookupA [("class", "a"), ("id", "x")] k) ∧
      (∀ k v, Mut.setAttr k v ∈ muts →
        lookupA [("id", "x")] k = some v ∧
          some v ≠ lookupA [("class", "a"), ("id", "x")] k) :=
  ⟨by decide, c7_attribute_reconciliation "DIV" false "" false []
    [("class", "a"), ("id", "x")] [("id", "x")] (by decide)⟩

/-- C8: during attribute reconciliation the live `value` of an element is
assigned only on a non-focused element (the source writes `el.value` only for
an `INPUT` whose `document.activeElement` check fails); in particular a
focused `INPUT` keeps its live value untouched whatever new `value` attribute
arrives. -/
theorem c8_focused_input_value (t : String) (a : List (String × String))
    (ck : Bool) (vl : String) (fc : Bool) (cs : List DNode)
    (oldA newA : List (String × String)) (e2 : Option DNode) (muts : List Mut)
    (h : updateAttributes (some (.delem t a ck vl fc cs)) oldA newA = .ok (e2, muts)) :
    (t = "INPUT" → fc = true →
      (∀ v, Mut.setValueProp v ∉ muts) ∧
      (∃ d, e2 = some d ∧ valueFieldOf d = some vl)) ∧
    (∀ v, Mut.setValueProp v ∈ muts → fc = false) := by
  obtain ⟨a1, m1, heq1, hall1, hiff1⟩ := removeAttrsPhase_delem oldA newA t ck vl fc cs a
  obtain ⟨a2, ck2, vl2, m2, heq2, hchar2, hvl2, hck2⟩ :=
    setAttrsPhase_delem newA oldA t fc cs a1 ck vl
  have hcomp : updateAttributes (some (.delem t a ck vl fc cs)) oldA newA
      = .ok (some (.delem t a2 ck2 vl2 fc cs), m1 ++ m2) := by
    simp [updateAttributes, heq1, heq2]
  rw [hcomp] at h
  injection h with h2
  injection h2 with he hm
  subst he
  subst hm
  refine ⟨?_, ?_⟩
  · intro ht hfc
    constructor
    · intro v hv
      rcases List.mem_append.mp hv with h1 | h2
      · obtain ⟨k', he⟩ := hall1 _ h1
        exact absurd he (by simp)
      · obtain ⟨k', v', _, _, hd⟩ := hchar2 _ h2
        rcases hd with ⟨he, _⟩ | ⟨_, _, hf, he⟩ | ⟨_, he⟩
        · exact absurd he (by simp)
        · rw [hfc] at hf
          exact absurd hf (by simp)
        · exact absurd he (by simp)
    · exact ⟨_, rfl, by simp [valueFieldOf, hvl2 hfc]⟩
  · intro v hv
    rcases List.mem_append.mp hv with h1 | h2
    · obtain ⟨k', he⟩ := hall1 _ h1
      exact absurd he (by simp)
    · obtain ⟨k', v', _, _, hd⟩ := hchar2 _ h2
      rcases hd with ⟨he, _⟩ | ⟨_, _, hf, he⟩ | ⟨_, he⟩
      · exact absurd he (by simp)
      · exact hf
      · exact absurd he (by simp)

/-- C8 witness: a focused `INPUT` whose live value is `user`, re-rendered with
`value` changing from `a` to `b`: no value write occurs and the live value is
kept. -/
theorem c8_focused_input_value_witness :
    ("INPUT" = "INPUT" → true = true →
      (∀ v, Mut.setValueProp v ∉ ([] : List Mut)) ∧
      (∃ d, (some (DNode.delem "INPUT" [("value", "a")] false "user" true [])
          : Option DNode) = some d ∧ valueFieldOf d = some "user")) ∧
    (∀ v, Mut.setValueProp v ∈ ([] : List Mut) → true = false) :=
  c8_focused_input_value "INPUT" [("value", "a")] false "user" true []
    [("value", "a")] [("value", "b")]
    (some (DNode.delem "INPUT" [("value", "a")] false "user" true [])) [] rfl

lemma lookupA_eq_none_of_not_mem {a : List (String × String)} {k : String}
    (h : ∀ p ∈ a, ¬ p.1 = k) : lookupA a k = none := by
  induction a with
  | nil => rfl
  | cons p rest ih =>
    obtain ⟨k0, v0⟩ := p
    rw [lookupA_cons, if_neg (by simpa using h (k0, v0) (List.mem_cons_self ..))]
    exact ih fun q hq => h q (List.mem_cons_of_mem _ hq)

lemma applyAttrs_spec (a : List (String × String)) :
    ∀ (acc : List (String × String)) (ck : Bool),
    keysNodup a = true →
    (∀ p ∈ a, acc.any (fun q => q.1 == p.1) = false) →
    applyAttrs acc a ck
      = (acc ++ a.filter (fun p => !(p.1 == "checked")),
        match lookupA a "checked" with
        | some v => v == "true" || v == "checked"
        | none => ck) := by
  induction a with
  | nil =>
    intro acc ck _ _
    simp [applyAttrs, lookupA]
  | cons p rest ih =>
    obtain ⟨k0, v0⟩ := p
    intro acc ck hnd hdis
    simp only [keysNodup, Bool.and_eq_true, Bool.not_eq_true'] at hnd
    by_cases hk : k0 = "checked"
    · subst hk
      have hrest : lookupA rest "checked" = none := by
        apply lookupA_eq_none_of_not_mem
        intro q hq hqk
        have hany : rest.any (fun q => q.1 == "checked") = true :=
          List.any_eq_true.mpr ⟨q, hq, by simp [hqk]⟩
        rw [hany] at hnd
        exact absurd hnd.1 (by simp)
      simp only [applyAttrs]
      rw [if_pos (by decide : (("checked" : String) == "checked") = true)]
      rw [ih acc _ hnd.2 fun q hq => hdis q (List.mem_cons_of_mem _ hq)]
      rw [lookupA_cons, if_pos (by decide), hrest]
      simp
    · have hacc : acc.any (fun q => q.1 == k0) = false :=
        hdis (k0, v0) (List.mem_cons_self ..)
      have hset : setAttrList acc k0 v0 = acc ++ [(k0, v0)] := by
        simp [setAttrList, hacc]
      have hdis2 : ∀ q ∈ rest, ((acc ++ [(k0, v0)]).any (fun r => r.1 == q.1)) = false := by
        intro q hq
        rw [List.any_append]
        have h1 : acc.any (fun r => r.1 == q.1) = false :=
          hdis q (List.mem_cons_of_mem _ hq)
        have hqk : ¬ k0 = q.1 := by
          intro he
          have hany : rest.any (fun r => r.1 == k0) = true :=
            List.any_eq_true.mpr ⟨q, hq, by simp [he.symm]⟩
          rw [hany] at hnd
          exact absurd hnd.1 (by simp)
        simp [h1, hqk]
      simp only [applyAttrs]
      rw [if_neg (by simpa using hk), hset, ih (acc ++ [(k0, v0)]) ck hnd.2 hdis2]
      rw [lookupA_cons, if_neg (by simpa using hk)]
      simp [List.filter_cons, hk]

/-- C9: a `checked` attribute is applied as a boolean (the string `true` or
the attribute's own name meaning checked) to the live `checked` property: the
reconciler never performs a literal `setAttribute` for `checked`, and writes
the decoded boolean property when the value changed; fresh elements built by
`createElementFromVNode` likewise set the boolean property and omit `checked`
from the literal attribute list. -/
theorem c9_checked_boolean_property :
    (∀ (t : String) (a : List (String × String)) (ck : Bool) (vl : String)
        (fc : Bool) (cs : List DNode) (oldA newA : List (String × String))
        (e2 : Option DNode) (muts : List Mut),
      updateAttributes (some (.delem t a ck vl fc cs)) oldA newA = .ok (e2, muts) →
      (∀ v, Mut.setAttr "checked" v ∉ muts) ∧
      (∀ v, lookupA newA "checked" = some v → some v ≠ lookupA oldA "checked" →
        Mut.setCheckedProp (v == "true" || v == "checked") ∈ muts)) ∧
    (∀ (t : String) (a : List (String × String)) (cs : List VNode),
      keysNodup a = true →
      createElementFromVNode (.element t a cs)
        = [.delem (jsToUpper t) (a.filter (fun p => !(p.1 == "checked")))
            (match lookupA a "checked" with
             | some v => v == "true" || v == "checked"
             | none => false) "" false (createElementFromVNode.goL cs)]) := by
  constructor
  · intro t a ck vl fc cs oldA newA e2 muts h
    obtain ⟨a1, m1, heq1, hall1, hiff1⟩ := removeAttrsPhase_delem oldA newA t ck vl fc cs a
    obtain ⟨a2, ck2, vl2, m2, heq2, hchar2, hvl2, hck2⟩ :=
      setAttrsPhase_delem newA oldA t fc cs a1 ck vl
    have hcomp : updateAttributes (some (.delem t a ck vl fc cs)) oldA newA
        = .ok (some (.delem t a2 ck2 vl2 fc cs), m1 ++ m2) := by
      simp [updateAttributes, heq1, heq2]
    rw [hcomp] at h
    injection h with h2
    injection h2 with he hm
    subst hm
    constructor
    · intro v hv
      rcases List.mem_append.mp hv with h1 | h2
      · obtain ⟨k', hx⟩ := hall1 _ h1
        exact absurd hx (by simp)
      · obtain ⟨k', v', _, _, hd⟩ := hchar2 _ h2
        rcases hd with ⟨hx, hkc⟩ | ⟨_, _, _, hx⟩ | ⟨_, hx⟩
        · injection hx with hx1 hx2
          exact hkc hx1.symm
        · exact absurd hx (by simp)
        · exact absurd hx (by simp)
    · intro v hv hne
      exact List.mem_append.mpr (Or.inr (hck2 v hv hne))
  · intro t a cs hnd
    simp only [createElementFromVNode]
    rw [applyAttrs_spec a [] false hnd (fun p _ => rfl)]
    simp

/-- C9 witness: the theorem applied to a `checked` change `none` to `"true"`
on a live element, and to building `<input checked="checked" id="x">` fresh:
the property is set, no `checked` attribute string is written. -/
theorem c9_checked_boolean_property_witness :
    (∀ v, Mut.setAttr "checked" v ∉ [Mut.setCheckedProp true]) ∧
    Mut.setCheckedProp (("true" == "true") || ("true" == "checked"))
      ∈ [Mut.setCheckedProp true] ∧
    createElementFromVNode (.element "input" [("checked", "checked"), ("id", "x")] [])
      = [.delem (jsToUpper "input")
          ([("checked", "checked"), ("id", "x")].filter (fun p => !(p.1 == "checked")))
          (match lookupA [("checked", "checked"), ("id", "x")] "checked" with
           | some v => v == "true" || v == "checked"
           | none => false) "" false (createElementFromVNode.goL [])] := by
  have h := (c9_checked_boolean_property).1 "INPUT" [] false "" false [] []
    [("checked", "true")] (some (.delem "INPUT" [] true "" false []))
    [Mut.setCheckedProp true] rfl
  exact ⟨h.1, h.2 "true" rfl (by decide),
    (c9_checked_boolean_property).2 "input" [("checked", "checked"), ("id", "x")] []
      (by decide)⟩

lemma createVNode_go_filter (cs : List DNode) :
    createVNode.go cs = createVNode.go (cs.filter (fun c => !(isOtherNode c))) := by
  induction cs with
  | nil => rfl
  | cons c rest ih =>
    cases c with
    | dtext s => simp [createVNode.go, isOtherNode, List.filter_cons, createVNode, ih]
    | dcomment s => simp [createVNode.go, isOtherNode, List.filter_cons, createVNode, ih]
    | delem t a ck vl fc cs2 =>
      simp [createVNode.go, isOtherNode, List.filter_cons, createVNode, ih]

/-- C10: any live node that is neither a text node nor an element converts to
`null`; text and element nodes always convert; the children of a converted
element, and the top-level list `parseHTML` works on, keep only the non-`null`
conversions — filtering such nodes out of the live child list changes neither
virtual tree, so they never appear in a virtual tree even though the live DOM
retains them. -/
theorem c10_non_element_nodes_omitted :
    (∀ s, createVNode (.dcomment s) = none) ∧
    (∀ s, (createVNode (.dtext s)).isSome = true) ∧
    (∀ t a ck vl fc cs, createVNode (.delem t a ck vl fc cs)
        = some (.element (jsToLower t) a (createVNode.go cs))) ∧
    (∀ cs, createVNode.go cs = createVNode.go (cs.filter (fun c => !(isOtherNode c)))) ∧
    (∀ ns, parseHTML ns = parseHTML (ns.filter (fun c => !(isOtherNode c)))) := by
  refine ⟨fun s => rfl, fun s => rfl, fun t a ck vl fc cs => rfl,
    createVNode_go_filter, fun ns => ?_⟩
  simp only [parseHTML]
  rw [createVNode_go_filter ns]

lemma clean_go_mem (cs : List DNode) :
    clean.go cs = true ↔ ∀ c ∈ cs, clean c = true := by
  induction cs with
  | nil => simp [clean.go]
  | cons c rest ih => simp [clean.go, Bool.and_eq_true, ih]

lemma clean_createVNode_isSome {d : DNode} (h : clean d = true) :
    ∃ v, createVNode d = some v := by
  cases d with
  | dtext s => exact ⟨_, rfl⟩
  | dcomment s => exact absurd h (by simp [clean])
  | delem t a ck vl fc cs => exact ⟨_, rfl⟩

lemma removeAttrsPhase_self (olds : List (String × String)) :
    ∀ (el : Option DNode) (newA : List (String × String)),
    (∀ p ∈ olds, (lookupA newA p.1).isSome = true) →
    removeAttrsPhase el olds newA = .ok (el, []) := by
  induction olds with
  | nil => intro el newA _; rfl
  | cons p rest ih =>
    obtain ⟨k, v⟩ := p
    intro el newA h
    simp only [removeAttrsPhase]
    rw [if_neg (Option.ne_none_iff_isSome.mpr (h (k, v) (List.mem_cons_self ..)))]
    exact ih el newA fun q hq => h q (List.mem_cons_of_mem _ hq)

lemma setAttrsPhase_self (news : List (String × String)) :
    ∀ (el : Option DNode) (oldA : List (String × String)),
    (∀ p ∈ news, lookupA oldA p.1 = some p.2) →
    setAttrsPhase el oldA news = .ok (el, []) := by
  induction news with
  | nil => intro el oldA _; rfl
  | cons p rest ih =>
    obtain ⟨k, v⟩ := p
    intro el oldA h
    simp only [setAttrsPhase]
    rw [if_neg (not_not_intro (h (k, v) (List.mem_cons_self ..)).symm)]
    exact ih el oldA fun q hq => h q (List.mem_cons_of_mem _ hq)

lemma updateAttributes_self (el : Option DNode) (a : List (String × String))
    (hnd : keysNodup a = true) : updateAttributes el a a = .ok (el, []) := by
  have h1 : removeAttrsPhase el a a = .ok (el, []) :=
    removeAttrsPhase_self a el a fun p hp => lookupA_mem_isSome hp
  have h2 : setAttrsPhase el a a = .ok (el, []) :=
    setAttrsPhase_self a el a fun p hp => lookupA_nodup_mem hnd hp
  simp [updateAttributes, h1, h2]

lemma take_len_append {α : Type} (pre l : List α) :
    (pre ++ l).take pre.length = pre := by
  induction pre with
  | nil => rfl
  | cons x rest ih => simp [ih]

lemma drop_len_succ_append {α : Type} (pre : List α) (c : α) (l : List α) :
    (pre ++ c :: l).drop (pre.length + 1) = l := by
  induction pre with
  | nil => rfl
  | cons x rest ih => simp

lemma getElem_len_append {α : Type} (pre : List α) (c : α) (l : List α) :
    (pre ++ c :: l)[pre.length]? = some c := by
  induction pre with
  | nil => simp
  | cons x rest ih => simpa using ih

lemma pcLoop_self (N : Nat)
    (IH : ∀ d, sizeOf d < N → clean d = true → ∀ v, createVNode d = some v →
      patch (some d) (some v) v = .ok ([d], [])) :
    ∀ (ds pre : List DNode), (∀ c ∈ ds, sizeOf c < N ∧ clean c = true) →
    pcLoop (createVNode.go ds) (createVNode.go ds) pre.length (pre ++ ds) true
      = .ok (pre ++ ds, []) := by
  intro ds
  induction ds with
  | nil =>
    intro pre _
    simp [createVNode.go, pcLoop, appendRest]
  | cons c rest ih =>
    intro pre hall
    obtain ⟨v, hv⟩ := clean_createVNode_isSome (hall c (List.mem_cons_self ..)).2
    simp only [createVNode.go]
    rw [hv]
    simp only [pcLoop]
    rw [getElem_len_append]
    rw [IH c (hall c (List.mem_cons_self ..)).1 (hall c (List.mem_cons_self ..)).2 v hv]
    have hsp : splice (pre ++ c :: rest) pre.length [c] = (pre ++ [c]) ++ rest := by
      simp [splice, take_len_append, drop_len_succ_append]
    dsimp only
    rw [hsp]
    have hrec := ih (pre ++ [c]) (fun q hq => hall q (List.mem_cons_of_mem _ hq))
    simp only [List.length_append, List.length_cons, List.length_nil] at hrec
    rw [hrec]
    simp

lemma patch_self_aux : ∀ (N : Nat) (d : DNode), sizeOf d < N → clean d = true →
    ∀ v, createVNode d = some v → patch (some d) (some v) v = .ok ([d], []) := by
  intro N
  induction N with
  | zero =>
    intro d h
    exact absurd h (Nat.not_lt_zero _)
  | succ N IHN =>
    intro d hsz hcl v hv
    cases d with
    | dtext s =>
      simp only [createVNode] at hv
      injection hv with hv2
      subst hv2
      simp [patch, sameVNode, vtype, Option.toList]
    | dcomment s => exact absurd hcl (by simp [clean])
    | delem t a ck vl fc cs =>
      simp only [createVNode] at hv
      injection hv with hv2
      subst hv2
      have hcl' := hcl
      simp only [clean, Bool.and_eq_true] at hcl'
      have hnd := hcl'.1
      have hcs : ∀ c ∈ cs, clean c = true := (clean_go_mem cs).mp hcl'.2
      have hszc : ∀ c ∈ cs, sizeOf c < N := by
        intro c hc
        have h1 : sizeOf c < sizeOf cs := List.sizeOf_lt_of_mem hc
        have h2 : sizeOf cs < sizeOf (DNode.delem t a ck vl fc cs) := by
          simp only [DNode.delem.sizeOf_spec]
          omega
        omega
      have hsame := sameVNode_refl (.element (jsToLower t) a (createVNode.go cs))
      simp only [patch, hsame, Bool.not_true, Bool.false_eq_true, if_false]
      rw [updateAttributes_self (some (.delem t a ck vl fc cs)) a hnd]
      by_cases h0 : (createVNode.go cs).isEmpty
      · simp [h0, Option.toList]
      · have hloop := pcLoop_self N IHN cs [] (fun c hc => ⟨hszc c hc, hcs c hc⟩)
        simp only [List.length_nil, List.nil_append] at hloop
        simp only [h0, Bool.and_self, if_false, Bool.false_eq_true]
        simp only [childNodesOf, isElemNode]
        rw [hloop]
        simp [setChildren]

/-- C3 (amended): `diff(container, h, h)` performs zero live mutations
provided the container's content was produced by rendering `h` and `h` parses
to a single root whose tree contains no comment (or other non-text,
non-element) nodes.  (Multi-root prior content breaks the claim — see the
counterexample — because `diff` only ever reconciles the container's first
child against the whole new tree.) -/
theorem c3_idempotence_single_root (d : DNode) (h : clean d = true) :
    diff [d] (some [d]) [d] = ([d], []) := by
  obtain ⟨v, hv⟩ := clean_createVNode_isSome h
  have hp : patch (some d) (some v) v = .ok ([d], []) :=
    patch_self_aux (sizeOf d + 1) d (by omega) h v hv
  have hparse : parseHTML [d] = v := by
    simp [parseHTML, createVNode.go, hv]
  simp [diff, diffBody, hparse, hv, hp]

/-- C3 witness: a concrete single-root rendering `<p>a</p>` diffed against
itself — no mutations. -/
theorem c3_idempotence_single_root_witness :
    clean (pNode "a") = true ∧
    diff [pNode "a"] (some [pNode "a"]) [pNode "a"] = ([pNode "a"], []) :=
  ⟨by decide, c3_idempotence_single_root (pNode "a") (by decide)⟩

end Miojo
